import Mathlib

/-!
Verification of the nfl-tippspiel application (src/app.py) against its
natural-language specification.

The Python code is shallowly embedded: Python dicts become association
lists with string keys (first-binding-wins lookup, in-place overwrite on
assignment, like a Python dict); JSON documents from the external API
become an inductive `Json` type; code that can raise a Python exception
becomes an `Except PyErr` computation; wall-clock instants become natural
numbers (minutes since an epoch — only their order matters); the opaque
password hash (`werkzeug.generate_password_hash`) becomes a function
parameter `hash : String → String`, with `check_password_hash stored pw`
modelled as `stored = hash pw`.
-/

set_option autoImplicit false

namespace NflApp

/-! ### Python-dict model: association lists with string keys -/

/-- Lookup in a dict modelled as an association list (first binding wins). -/
def alistGet {α : Type} : List (String × α) → String → Option α
  | [], _ => none
  | (k, v) :: rest, key => if k = key then some v else alistGet rest key

/-- Dict assignment `d[k] = v`: overwrite the existing binding in place,
or append a new binding at the end (Python dict insertion-order semantics). -/
def alistSet {α : Type} : List (String × α) → String → α → List (String × α)
  | [], key, v => [(key, v)]
  | (k, w) :: rest, key, v =>
    if k = key then (k, v) :: rest else (k, w) :: alistSet rest key v

theorem alistGet_alistSet_self {α : Type} (l : List (String × α)) (k : String) (v : α) :
    alistGet (alistSet l k v) k = some v := by
  induction l with
  | nil => simp [alistGet, alistSet]
  | cons hd tl ih =>
    obtain ⟨k', v'⟩ := hd
    by_cases h : k' = k
    · simp [alistGet, alistSet, h]
    · simp [alistGet, alistSet, h, ih]

theorem alistGet_alistSet_ne {α : Type} (l : List (String × α)) (k k' : String) (v : α)
    (h : k' ≠ k) : alistGet (alistSet l k' v) k = alistGet l k := by
  induction l with
  | nil => simp [alistGet, alistSet, h]
  | cons hd tl ih =>
    obtain ⟨k₀, v₀⟩ := hd
    by_cases h0 : k₀ = k'
    · subst h0
      simp [alistGet, alistSet, h]
    · simp only [alistSet, if_neg h0]
      by_cases h1 : k₀ = k
      · simp [alistGet, h1]
      · simp [alistGet, h1, ih]

/-! ### JSON documents -/

/-- JSON values, as parsed by Python's `json.load` (numbers restricted to
integers; the application never relies on fractional numbers). An `obj` is
a Python dict whose keys, coming from `json.load`, are unique. -/
inductive Json where
  | null : Json
  | bool : Bool → Json
  | num : Int → Json
  | str : String → Json
  | arr : List Json → Json
  | obj : List (String × Json) → Json

/-! ### Record Store: `load_json` (src/app.py lines 17-24) -/

/-- The state of a store file on disk: absent, or present with some raw
textual content (which may or may not parse as JSON). -/
inductive FileState where
  | absent : FileState
  | present : String → FileState
  deriving DecidableEq

/-- `load_json(filename)` from src/app.py: missing file → `{}`; present file
→ parse, and on `json.JSONDecodeError` return `{}`. The JSON parser itself
is a parameter `parseJson` (success = `some doc`, decode error = `none`).
The function is total: it returns a document in every file state. -/
def load_json (parseJson : String → Option Json) : FileState → Json
  | .absent => .obj []
  | .present content =>
    match parseJson content with
    | some doc => doc
    | none => .obj []

/-! ### Pick Submission Flow (src/app.py `week_view`, lines 131-181) -/

/-- A user's picks for one week: `game_id → picked_team_id`. -/
abbrev UserPicks := List (String × String)

/-- One week of the pick document: `username → UserPicks`. -/
abbrev WeekData := List (String × UserPicks)

/-- The whole pick document: `week (string) → WeekData`. -/
abbrev Store := List (String × WeekData)

/-- The POST loop of `week_view` (src/app.py lines 157-165): for each form
entry `(game_id, team_id)`, look up the kickoff in `game_start_times`
(`gst`).  `kickoff = game_start_times.get(game_id)` is `None` exactly when
the game is absent from the map (a Python `datetime` is never falsy, so
`not kickoff` means `kickoff is None`); the pick is stored when the game is
absent or `now < kickoff`, otherwise it is counted as blocked.  Returns the
updated picks dict together with `(saved_count, blocked_count)`. -/
def processForm (now : Nat) (gst : List (String × Nat)) :
    UserPicks → List (String × String) → UserPicks × Nat × Nat
  | picks, [] => (picks, 0, 0)
  | picks, (gameId, teamId) :: rest =>
    match alistGet gst gameId with
    | none =>
      let r := processForm now gst (alistSet picks gameId teamId) rest
      (r.1, r.2.1 + 1, r.2.2)
    | some kickoff =>
      if now < kickoff then
        let r := processForm now gst (alistSet picks gameId teamId) rest
        (r.1, r.2.1 + 1, r.2.2)
      else
        let r := processForm now gst picks rest
        (r.1, r.2.1, r.2.2 + 1)

/-- Result of one `week_view` request: the persisted pick document after the
request, the number of `save_json` calls made, and the reported counts. -/
structure WeekViewResult where
  store : Store
  writes : Nat
  saved : Nat
  blocked : Nat
  deriving DecidableEq

/-- `week_view` (src/app.py lines 131-181) for an authenticated user, after
the schedule has been fetched and `game_start_times` (`gst`) built.  The
week/user entries are created lazily in memory; on POST the form is merged
via `processForm` and the document is saved exactly once (`writes = 1`); on
GET nothing is saved, so the persisted document is unchanged. -/
def week_view (isPost : Bool) (week user : String) (store : Store)
    (gst : List (String × Nat)) (now : Nat) (form : List (String × String)) :
    WeekViewResult :=
  let allData := if alistGet store week = none then alistSet store week [] else store
  let wk := (alistGet allData week).getD []
  let allData := if alistGet wk user = none then alistSet allData week (alistSet wk user []) else allData
  match isPost with
  | true =>
    let wk := (alistGet allData week).getD []
    let up := (alistGet wk user).getD []
    let r := processForm now gst up form
    { store := alistSet allData week (alistSet wk user r.1),
      writes := 1, saved := r.2.1, blocked := r.2.2 }
  | false =>
    { store := store, writes := 0, saved := 0, blocked := 0 }

/-! ### Authentication: `login` (src/app.py lines 99-124) -/

/-- Python `s.strip()`: remove leading and trailing whitespace. -/
def pyStrip (s : String) : String :=
  String.mk (((s.toList.dropWhile Char.isWhitespace).reverse.dropWhile
    Char.isWhitespace).reverse)

/-- Outcome classification of a `login` request, matching the four exits of
the Python handler. -/
inductive LoginResult where
  | validationError : LoginResult
  | created : LoginResult
  | success : LoginResult
  | wrongPassword : LoginResult
  deriving DecidableEq

/-- The state after a `login` request: the users store, the session user,
and which exit was taken. -/
structure LoginOutcome where
  users : List (String × String)
  sessionUser : Option String
  result : LoginResult
  deriving DecidableEq

/-- `login` (src/app.py lines 99-124).  `usernameField`/`passwordField` are
`request.form.get('username', '')` / `request.form.get('password')`: the
username defaults to `""` and is stripped, the password is NOT stripped and
may be missing (`none`).  `if not username or not password` rejects an empty
stripped username, a missing password, or an empty password.  A new username
is registered with `hash password` and logged in; an existing username is
logged in iff the stored hash matches; otherwise the session is untouched. -/
def login (hash : String → String) (users : List (String × String))
    (sess : Option String) (usernameField : Option String)
    (passwordField : Option String) : LoginOutcome :=
  let username := pyStrip (usernameField.getD "")
  match passwordField with
  | none => { users := users, sessionUser := sess, result := .validationError }
  | some password =>
    if username = "" ∨ password = "" then
      { users := users, sessionUser := sess, result := .validationError }
    else
      match alistGet users username with
      | none =>
        { users := alistSet users username (hash password),
          sessionUser := some username, result := .created }
      | some stored =>
        if stored = hash password then
          { users := users, sessionUser := some username, result := .success }
        else
          { users := users, sessionUser := sess, result := .wrongPassword }

/-! ### Python semantics on `Json` values -/

/-- The Python exceptions the embedded code can raise. -/
inductive PyErr where
  | keyError : PyErr
  | typeError : PyErr
  | indexError : PyErr
  | attributeError : PyErr
  deriving DecidableEq, Repr

/-- Python truthiness of a JSON value: `None`, `False`, `0`, `""`, `[]` and
an empty dict are falsy, everything else is truthy. -/
def pyTruthy : Json → Bool
  | .null => false
  | .bool b => b
  | .num n => n ≠ 0
  | .str s => s ≠ ""
  | .arr xs => !xs.isEmpty
  | .obj fields => !fields.isEmpty

/-- Python `j == s` for a string literal `s`: true only when `j` is the same
string (comparison with values of other types is `False`, never an error). -/
def pyEqStr (j : Json) (s : String) : Bool :=
  match j with
  | .str t => t = s
  | _ => false

/-- Does the character list `needle` occur as a prefix of `hay`? -/
def charsPrefix : List Char → List Char → Bool
  | [], _ => true
  | _ :: _, [] => false
  | a :: as, b :: bs => a = b && charsPrefix as bs

/-- Does `needle` occur as a contiguous substring of `hay`? -/
def charsSubstr (needle : List Char) : List Char → Bool
  | [] => charsPrefix needle []
  | c :: rest => charsPrefix needle (c :: rest) || charsSubstr needle rest

/-- Python `key in j`: key membership for a dict, `==`-membership for a
list, substring test for a string; `TypeError` otherwise. -/
def pyContains (j : Json) (key : String) : Except PyErr Bool :=
  match j with
  | .obj fields => .ok ((alistGet fields key).isSome)
  | .arr xs => .ok (xs.any (fun x => pyEqStr x key))
  | .str s => .ok (charsSubstr key.toList s.toList)
  | _ => .error .typeError

/-- Python `j[key]` for a string key: dict lookup (`KeyError` when the key
is missing), `TypeError` on every non-dict (string and list subscripts
require integers). -/
def pyGetKey (j : Json) (key : String) : Except PyErr Json :=
  match j with
  | .obj fields =>
    match alistGet fields key with
    | some v => .ok v
    | none => .error .keyError
  | _ => .error .typeError

/-- Python `j[0]`: first element of a list (`IndexError` when empty), first
character of a string, `KeyError` on a dict (the embedded dicts have only
string keys, so the integer key `0` is never present), `TypeError`
otherwise. -/
def pyIndexZero (j : Json) : Except PyErr Json :=
  match j with
  | .arr (x :: _) => .ok x
  | .arr [] => .error .indexError
  | .str s =>
    match s.toList with
    | c :: _ => .ok (.str (String.singleton c))
    | [] => .error .indexError
  | .obj _ => .error .keyError
  | _ => .error .typeError

/-- Python `j.get(key, default)`: only dicts have `.get`; every other value
raises `AttributeError`. -/
def pyGetDefault (j : Json) (key : String) (default : Json) : Except PyErr Json :=
  match j with
  | .obj fields => .ok ((alistGet fields key).getD default)
  | _ => .error .attributeError

/-- Python iteration `for x in j`: the elements of a list, the keys of a
dict, the characters of a string; `TypeError` otherwise. -/
def pyIter (j : Json) : Except PyErr (List Json) :=
  match j with
  | .arr xs => .ok xs
  | .obj fields => .ok (fields.map (fun p => Json.str p.1))
  | .str s => .ok (s.toList.map (fun c => Json.str (String.singleton c)))
  | _ => .error .typeError

mutual

/-- Python `repr` of a JSON value (escaping inside strings is not
reproduced; the application only ever builds `str(...)` of scalar ids). -/
def pyRepr : Json → String
  | .null => "None"
  | .bool true => "True"
  | .bool false => "False"
  | .num n => toString n
  | .str s => "\x27" ++ s ++ "\x27"
  | .arr xs => "[" ++ pyReprList xs ++ "]"
  | .obj fields => "\x7b" ++ pyReprFields fields ++ "\x7d"

/-- Comma-separated `repr`s of list elements. -/
def pyReprList : List Json → String
  | [] => ""
  | [x] => pyRepr x
  | x :: y :: rest => pyRepr x ++ ", " ++ pyReprList (y :: rest)

/-- Comma-separated `repr`s of dict entries. -/
def pyReprFields : List (String × Json) → String
  | [] => ""
  | [(k, v)] => "\x27" ++ k ++ "\x27: " ++ pyRepr v
  | (k, v) :: f :: rest => "\x27" ++ k ++ "\x27: " ++ pyRepr v ++ ", " ++ pyReprFields (f :: rest)

end

/-- Python `str(j)`: the string itself for strings, `repr` otherwise. -/
def pyStr (j : Json) : String :=
  match j with
  | .str s => s
  | _ => pyRepr j

/-! ### Winner Resolver: `determine_winners` (src/app.py lines 62-74) -/

/-- `event['competitions'][0]['status']['type']['completed']` as a Python
truthiness test, propagating any exception of the chained subscripts. -/
def eventCompleted (event : Json) : Except PyErr Bool := do
  let comps ← pyGetKey event "competitions"
  let competition ← pyIndexZero comps
  let status ← pyGetKey competition "status"
  let ty ← pyGetKey status "type"
  let completed ← pyGetKey ty "completed"
  return pyTruthy completed

/-- `event['competitions'][0]['competitors']` iterated as a Python `for`
loop, propagating any exception. -/
def eventCompetitors (event : Json) : Except PyErr (List Json) := do
  let comps ← pyGetKey event "competitions"
  let competition ← pyIndexZero comps
  let competitors ← pyGetKey competition "competitors"
  pyIter competitors

/-- `competitor.get('winner', False)` as a Python truthiness test. -/
def competitorIsWinner (competitor : Json) : Except PyErr Bool := do
  let flag ← pyGetDefault competitor "winner" (.bool false)
  return pyTruthy flag

/-- The assignment `winners[str(event['id'])] = competitor['team']['id']`:
Python evaluates the right-hand side first, then the subscript of the
target. -/
def winnerEntry (event competitor : Json) : Except PyErr (String × Json) := do
  let team ← pyGetKey competitor "team"
  let teamId ← pyGetKey team "id"
  let eventId ← pyGetKey event "id"
  return (pyStr eventId, teamId)

/-- The inner loop of `determine_winners` (src/app.py lines 71-73) over one
completed event's competitor list, threading the `winners` dict. -/
def processCompetitors (event : Json) :
    List Json → List (String × Json) → Except PyErr (List (String × Json))
  | [], winners => .ok winners
  | competitor :: rest, winners =>
    match competitorIsWinner competitor with
    | .error e => .error e
    | .ok false => processCompetitors event rest winners
    | .ok true =>
      match winnerEntry event competitor with
      | .error e => .error e
      | .ok entry => processCompetitors event rest (alistSet winners entry.1 entry.2)

/-- The outer loop of `determine_winners` (src/app.py lines 68-73) over the
events list. -/
def processEvents : List Json → List (String × Json) → Except PyErr (List (String × Json))
  | [], winners => .ok winners
  | event :: rest, winners =>
    match eventCompleted event with
    | .error e => .error e
    | .ok false => processEvents rest winners
    | .ok true =>
      match eventCompetitors event with
      | .error e => .error e
      | .ok competitors =>
        match processCompetitors event competitors winners with
        | .error e => .error e
        | .ok winners' => processEvents rest winners'

/-- `determine_winners(games)` (src/app.py lines 62-74): return `{}` when
`games` is falsy or does not contain the key `'events'`; otherwise iterate
`games.get('events', [])`, and for each event whose competition is
completed record `winners[str(event['id'])] = competitor['team']['id']` for
every competitor whose `winner` flag is truthy.  Exceptions raised by the
subscripts on malformed events propagate (they are not caught). -/
def determine_winners (games : Json) : Except PyErr (List (String × Json)) :=
  if !pyTruthy games then .ok []
  else
    match pyContains games "events" with
    | .error e => .error e
    | .ok false => .ok []
    | .ok true =>
      match pyGetDefault games "events" (.arr []) with
      | .error e => .error e
      | .ok eventsJson =>
        match pyIter eventsJson with
        | .error e => .error e
        | .ok events => processEvents events []

/-! ### Leaderboard Aggregator: `scoreboard` (src/app.py lines 183-261) -/

/-- Python's `round` to the nearest integer with ties to even (banker's
rounding); floats are modelled as exact rationals. -/
def pyRoundInt (q : ℚ) : ℤ :=
  let f : ℤ := ⌊q⌋
  let frac : ℚ := q - f
  if frac < 1 / 2 then f
  else if 1 / 2 < frac then f + 1
  else if f % 2 = 0 then f else f + 1

/-- Python's `round(x, 1)`: round to one decimal place, ties to even. -/
def pyRound1 (q : ℚ) : ℚ :=
  (pyRoundInt (q * 10) : ℚ) / 10

/-- The selected player's `(total_picks, total_wins)` contribution of one
pick list against a winner map (src/app.py lines 226-233, restricted to the
counters): each pick counts once, and wins when
`game_id in winners and winners[game_id] == picked_team_id`. -/
def pickStats (winners : List (String × String)) : UserPicks → Nat × Nat
  | [] => (0, 0)
  | (gameId, pickedTeamId) :: rest =>
    let r := pickStats winners rest
    if alistGet winners gameId = some pickedTeamId then (r.1 + 1, r.2 + 1)
    else (r.1 + 1, r.2)

/-- One week's contribution to the selected player's counters: the inner
`for player, picks in week_picks.items()` loop contributes only the items
whose key is the selected player (src/app.py line 231). -/
def weekPlayerStats (winners : List (String × String)) (selected : String) :
    WeekData → Nat × Nat
  | [] => (0, 0)
  | (player, picks) :: rest =>
    let r := weekPlayerStats winners selected rest
    if player = selected then
      let s := pickStats winners picks
      (r.1 + s.1, r.2 + s.2)
    else r

/-- `(total_picks, total_wins)` for the selected player accumulated over the
whole pick document (src/app.py lines 208-238, restricted to the counters);
`weekWinners` maps a stored week key to the winner map resolved from that
week's fetched schedule. -/
def scoreboardStats (weekWinners : String → List (String × String))
    (selected : String) : Store → Nat × Nat
  | [] => (0, 0)
  | (weekStr, weekPicks) :: rest =>
    let r := scoreboardStats weekWinners selected rest
    let s := weekPlayerStats (weekWinners weekStr) selected weekPicks
    (r.1 + s.1, r.2 + s.2)

/-- `win_rate = round((total_wins / total_picks * 100), 1) if total_picks > 0
else 0` (src/app.py line 247). -/
def scoreboardWinRate (weekWinners : String → List (String × String))
    (selected : String) (allData : Store) : ℚ :=
  let s := scoreboardStats weekWinners selected allData
  if 0 < s.1 then pyRound1 ((s.2 : ℚ) / (s.1 : ℚ) * 100) else 0

/-- The number of picks recorded for `selected` in one week of the pick
document (every item of the week's dict whose key is the selected player). -/
def playerWeekPicks (selected : String) : WeekData → Nat
  | [] => 0
  | (player, picks) :: rest =>
    (if player = selected then picks.length else 0) + playerWeekPicks selected rest

/-- The number of picks recorded for `selected` across all weeks of the
pick document — the spec's "recorded picks across all weeks". -/
def playerTotalPicks (selected : String) : Store → Nat
  | [] => 0
  | (_, weekPicks) :: rest =>
    playerWeekPicks selected weekPicks + playerTotalPicks selected rest

/-! ## Theorems -/

/-- C4: `load_json` never raises — it is a total function of the file state
— and returns the parsed document when parsing succeeds, an empty mapping
when the file is absent or fails to parse. -/
theorem C4_load_json_total_recovery (parseJson : String → Option Json) (fs : FileState) :
    (fs = .absent → load_json parseJson fs = .obj [])
    ∧ (∀ c, fs = .present c →
        (parseJson c = none → load_json parseJson fs = .obj [])
        ∧ (∀ d, parseJson c = some d → load_json parseJson fs = d)) := by
  constructor
  · rintro rfl
    rfl
  · rintro c rfl
    constructor
    · intro h
      simp [load_json, h]
    · intro d h
      simp [load_json, h]

/-- Witness for C4 at a concrete unparsable file, a parsable file, and an
absent file. -/
theorem C4_load_json_witness :
    load_json (fun _ => none) (.present "not json") = Json.obj []
    ∧ load_json (fun _ => some (Json.num 3)) (.present "3") = Json.num 3
    ∧ load_json (fun _ => none) .absent = Json.obj [] :=
  ⟨((C4_load_json_total_recovery (fun _ => none) (.present "not json")).2 "not json" rfl).1 rfl,
   (((C4_load_json_total_recovery (fun _ => some (Json.num 3)) (.present "3")).2 "3" rfl).2
     (Json.num 3) rfl),
   (C4_load_json_total_recovery (fun _ => none) .absent).1 rfl⟩

/-- C5: the submission loop counts every submitted entry exactly once as
saved or blocked: `saved_count + blocked_count` equals the number of
submitted entries, for every submission. -/
theorem C5_saved_plus_blocked (now : Nat) (gst : List (String × Nat))
    (picks : UserPicks) (form : List (String × String)) :
    (processForm now gst picks form).2.1 + (processForm now gst picks form).2.2
      = form.length := by
  induction form generalizing picks with
  | nil => rfl
  | cons hd rest ih =>
    obtain ⟨gid, tid⟩ := hd
    cases h : alistGet gst gid with
    | none =>
      have := ih (alistSet picks gid tid)
      simp only [processForm, h, List.length_cons]
      omega
    | some kickoff =>
      by_cases hk : now < kickoff
      · have := ih (alistSet picks gid tid)
        simp only [processForm, h, if_pos hk, List.length_cons]
        omega
      · have := ih picks
        simp only [processForm, h, if_neg hk, List.length_cons]
        omega

/-- C9: a POST to `week_view` saves the pick document exactly once
(whatever the form, including an empty or fully blocked one) and the saved
document contains the lazily created `(week)` and `(week, user)` entries;
a GET performs no save and leaves the persisted document unchanged. -/
theorem C9_post_saves_once_get_pure (week user : String) (store : Store)
    (gst : List (String × Nat)) (now : Nat) (form : List (String × String)) :
    (week_view true week user store gst now form).writes = 1
    ∧ (∃ wk, alistGet (week_view true week user store gst now form).store week = some wk
        ∧ ∃ up, alistGet wk user = some up)
    ∧ (week_view false week user store gst now form).writes = 0
    ∧ (week_view false week user store gst now form).store = store := by
  refine ⟨rfl, ?_, rfl, rfl⟩
  exact ⟨_, alistGet_alistSet_self _ _ _, _, alistGet_alistSet_self _ _ _⟩

/-- C3: with non-empty credentials, `login` on a previously unseen username
stores the hash of the password as the account record and establishes a
session for that username; on an existing username it succeeds (session
set) exactly when the password's hash matches the stored hash, and on a
mismatch it fails with the users store and session unchanged. -/
theorem C3_login_register_verify (hash : String → String)
    (users : List (String × String)) (sess : Option String) (u p : String)
    (hu : pyStrip u ≠ "") (hp : p ≠ "") :
    (alistGet users (pyStrip u) = none →
      login hash users sess (some u) (some p) =
        { users := alistSet users (pyStrip u) (hash p),
          sessionUser := some (pyStrip u), result := .created })
    ∧ (∀ stored, alistGet users (pyStrip u) = some stored →
        (stored = hash p →
          login hash users sess (some u) (some p) =
            { users := users, sessionUser := some (pyStrip u), result := .success })
        ∧ (stored ≠ hash p →
          login hash users sess (some u) (some p) =
            { users := users, sessionUser := sess, result := .wrongPassword })) := by
  refine ⟨?_, ?_⟩
  · intro h
    simp [login, hu, hp, h]
  · intro stored h
    refine ⟨?_, ?_⟩
    · intro he
      simp [login, hu, hp, h, he]
    · intro hne
      simp [login, hu, hp, h, hne]

/-- Witness for C3: registering "bob", then logging in with the right and
with the wrong password. -/
theorem C3_login_witness :
    login (fun s => s ++ "#h") [] none (some "bob") (some "pw") =
      { users := [("bob", "pw#h")], sessionUser := some "bob", result := .created }
    ∧ login (fun s => s ++ "#h") [("bob", "pw#h")] none (some "bob") (some "pw") =
      { users := [("bob", "pw#h")], sessionUser := some "bob", result := .success }
    ∧ login (fun s => s ++ "#h") [("bob", "pw#h")] none (some "bob") (some "wrong") =
      { users := [("bob", "pw#h")], sessionUser := none, result := .wrongPassword } := by
  refine ⟨?_, ?_, ?_⟩
  · have h := (C3_login_register_verify (fun s => s ++ "#h") [] none "bob" "pw"
      (by decide) (by decide)).1 rfl
    simpa using h
  · have h := (((C3_login_register_verify (fun s => s ++ "#h") [("bob", "pw#h")] none "bob" "pw"
      (by decide) (by decide)).2 "pw#h") rfl).1 (by decide)
    simpa using h
  · have h := (((C3_login_register_verify (fun s => s ++ "#h") [("bob", "pw#h")] none "bob" "wrong"
      (by decide) (by decide)).2 "pw#h") rfl).2 (by decide)
    simpa using h

/-- C6 counterexample: the code does not strip the password before the
emptiness check, so a whitespace-only password (empty after trimming) is
NOT rejected as a validation error — here it even creates the account
"bob" with a session. -/
theorem C6_counterexample_whitespace_password :
    pyStrip " " = ""
    ∧ (login (fun s => s) [] none (some "bob") (some " ")).result = .created
    ∧ (login (fun s => s) [] none (some "bob") (some " ")).sessionUser = some "bob" := by
  refine ⟨by decide, by decide, by decide⟩

/-- C6 (amended): `login` fails with a validation error — users store and
session untouched — exactly when the stripped username is empty, or the
password is missing or empty WITHOUT stripping (a whitespace-only password
passes the check). -/
theorem C6_validation_amended (hash : String → String)
    (users : List (String × String)) (sess : Option String)
    (uf pf : Option String) :
    ((login hash users sess uf pf).result = .validationError ↔
      (pyStrip (uf.getD "") = "" ∨ pf = none ∨ pf = some ""))
    ∧ ((login hash users sess uf pf).result = .validationError →
        login hash users sess uf pf =
          { users := users, sessionUser := sess, result := .validationError }) := by
  cases pf with
  | none => simp [login]
  | some p =>
    by_cases hcond : pyStrip (uf.getD "") = "" ∨ p = ""
    · constructor
      · simp only [login, if_pos hcond]
        rcases hcond with h | h <;> simp [h]
      · intro _
        simp [login, hcond]
    · rcases not_or.mp hcond with ⟨h1, h2⟩
      cases h : alistGet users (pyStrip (uf.getD "")) with
      | none =>
        constructor
        · simp [login, hcond, h, h1, h2]
        · intro hres
          exact absurd hres (by simp [login, hcond, h])
      | some stored =>
        by_cases he : stored = hash p
        · constructor
          · simp [login, hcond, h, he, h1, h2]
          · intro hres
            exact absurd hres (by simp [login, hcond, h, he])
        · constructor
          · simp [login, hcond, h, he, h1, h2]
          · intro hres
            exact absurd hres (by simp [login, hcond, h, he])

/-- Witness for C6 (amended): a missing password and an empty username are
rejected with the store and session untouched. -/
theorem C6_validation_amended_witness :
    (login (fun s => s) [("a", "b")] none (some "bob") none).result = .validationError
    ∧ login (fun s => s) [("a", "b")] none (some "bob") none =
        { users := [("a", "b")], sessionUser := none, result := .validationError }
    ∧ (login (fun s => s) [("a", "b")] none (some "  ") (some "pw")).result = .validationError := by
  have h1 := C6_validation_amended (fun s => s) [("a", "b")] none (some "bob") none
  have h2 := C6_validation_amended (fun s => s) [("a", "b")] none (some "  ") (some "pw")
  exact ⟨h1.1.mpr (by simp), h1.2 (h1.1.mpr (by simp)),
    h2.1.mpr (Or.inl (by decide))⟩

/-- The submission loop touches only the games that appear in the form:
for a game id not among the form's keys, the stored pick is unchanged. -/
theorem processForm_alistGet_of_not_mem (now : Nat) (gst : List (String × Nat))
    (picks : UserPicks) (form : List (String × String)) (gid : String)
    (h : gid ∉ form.map Prod.fst) :
    alistGet (processForm now gst picks form).1 gid = alistGet picks gid := by
  induction form generalizing picks with
  | nil => rfl
  | cons hd rest ih =>
    obtain ⟨g, t⟩ := hd
    simp only [List.map_cons, List.mem_cons, not_or] at h
    obtain ⟨hne, hrest⟩ := h
    have hset : alistGet (alistSet picks g t) gid = alistGet picks gid :=
      alistGet_alistSet_ne picks gid g t (fun e => hne e.symm)
    cases hg : alistGet gst g with
    | none =>
      simp only [processForm, hg]
      rw [ih (alistSet picks g t) hrest, hset]
    | some kickoff =>
      by_cases hk : now < kickoff
      · simp only [processForm, hg, if_pos hk]
        rw [ih (alistSet picks g t) hrest, hset]
      · simp only [processForm, hg, if_neg hk]
        exact ih picks hrest

/-- C1: in the submission loop, for every submitted entry `(gid, tid)` of a
form with distinct game ids, the pick is stored exactly when the game has
no known kickoff or the current time is strictly before its kickoff
(first conjunct: the condition forces the stored pick to become `tid`,
overwriting any prior pick; second conjunct: otherwise the stored pick for
that game is untouched, i.e. the entry is blocked); in particular when the
current time equals the kickoff the pick is blocked (third conjunct), and a
game absent from the kickoff map is accepted (an instance of the first
conjunct via the left disjunct). -/
theorem C1_lock_rule (now : Nat) (gst : List (String × Nat)) (picks : UserPicks)
    (form : List (String × String)) (hnd : (form.map Prod.fst).Nodup)
    (gid tid : String) (hmem : (gid, tid) ∈ form) :
    ((alistGet gst gid = none ∨ ∃ k, alistGet gst gid = some k ∧ now < k) →
      alistGet (processForm now gst picks form).1 gid = some tid)
    ∧ (¬(alistGet gst gid = none ∨ ∃ k, alistGet gst gid = some k ∧ now < k) →
      alistGet (processForm now gst picks form).1 gid = alistGet picks gid)
    ∧ (alistGet gst gid = some now →
      alistGet (processForm now gst picks form).1 gid = alistGet picks gid) := by
  induction form generalizing picks with
  | nil => exact absurd hmem (List.not_mem_nil _)
  | cons hd rest ih =>
    obtain ⟨g, t⟩ := hd
    simp only [List.map_cons, List.nodup_cons] at hnd
    obtain ⟨hg_not, hnd_rest⟩ := hnd
    rcases List.mem_cons.mp hmem with hhead | htail
    · -- the entry is the head of the form
      have e1 : gid = g := congrArg Prod.fst hhead
      have e2 : tid = t := congrArg Prod.snd hhead
      subst e1
      subst e2
      have hnotrest :
          ∀ picks', alistGet (processForm now gst picks' rest).1 gid = alistGet picks' gid :=
        fun picks' => processForm_alistGet_of_not_mem now gst picks' rest gid hg_not
      refine ⟨?_, ?_, ?_⟩
      · rintro (habs | ⟨k, hk, hlt⟩)
        · simp only [processForm, habs]
          rw [hnotrest (alistSet picks gid tid), alistGet_alistSet_self]
        · simp only [processForm, hk, if_pos hlt]
          rw [hnotrest (alistSet picks gid tid), alistGet_alistSet_self]
      · intro hcond
        cases hk : alistGet gst gid with
        | none => exact absurd (Or.inl hk) hcond
        | some kickoff =>
          have hnlt : ¬ now < kickoff := fun hlt => hcond (Or.inr ⟨kickoff, hk, hlt⟩)
          simp only [processForm, hk, if_neg hnlt]
          exact hnotrest picks
      · intro hk
        have hnlt : ¬ now < now := lt_irrefl now
        simp only [processForm, hk, if_neg hnlt]
        exact hnotrest picks
    · -- the entry is in the tail; the head's key differs from gid
      have hgid_in : gid ∈ rest.map Prod.fst :=
        List.mem_map.mpr ⟨(gid, tid), htail, rfl⟩
      have hne : g ≠ gid := fun e => hg_not (e ▸ hgid_in)
      have hset : alistGet (alistSet picks g t) gid = alistGet picks gid :=
        alistGet_alistSet_ne picks gid g t hne
      cases hg : alistGet gst g with
      | none =>
        have h := ih (alistSet picks g t) hnd_rest htail
        simp only [processForm, hg]
        exact ⟨h.1, fun hc => (h.2.1 hc).trans hset, fun hk => (h.2.2 hk).trans hset⟩
      | some kickoff =>
        by_cases hklt : now < kickoff
        · have h := ih (alistSet picks g t) hnd_rest htail
          simp only [processForm, hg, if_pos hklt]
          exact ⟨h.1, fun hc => (h.2.1 hc).trans hset, fun hk => (h.2.2 hk).trans hset⟩
        · have h := ih picks hnd_rest htail
          simp only [processForm, hg, if_neg hklt]
          exact h

/-- Witness for C1 at a concrete submission: game "a" (future kickoff) is
stored, game "d" (absent from the kickoff map) is stored, game "b" (past
kickoff) is blocked, game "c" (kickoff exactly now) is blocked. -/
theorem C1_lock_rule_witness :
    alistGet (processForm 10 [("a", 20), ("b", 5), ("c", 10)] []
      [("a", "T1"), ("b", "T2"), ("c", "T3"), ("d", "T4")]).1 "a" = some "T1"
    ∧ alistGet (processForm 10 [("a", 20), ("b", 5), ("c", 10)] []
      [("a", "T1"), ("b", "T2"), ("c", "T3"), ("d", "T4")]).1 "d" = some "T4"
    ∧ alistGet (processForm 10 [("a", 20), ("b", 5), ("c", 10)] []
      [("a", "T1"), ("b", "T2"), ("c", "T3"), ("d", "T4")]).1 "b"
        = alistGet ([] : UserPicks) "b"
    ∧ alistGet (processForm 10 [("a", 20), ("b", 5), ("c", 10)] []
      [("a", "T1"), ("b", "T2"), ("c", "T3"), ("d", "T4")]).1 "c"
        = alistGet ([] : UserPicks) "c" := by
  refine ⟨?_, ?_, ?_, ?_⟩
  · exact (C1_lock_rule 10 [("a", 20), ("b", 5), ("c", 10)] []
      [("a", "T1"), ("b", "T2"), ("c", "T3"), ("d", "T4")] (by decide) "a" "T1"
      (by decide)).1 (Or.inr ⟨20, rfl, by decide⟩)
  · exact (C1_lock_rule 10 [("a", 20), ("b", 5), ("c", 10)] []
      [("a", "T1"), ("b", "T2"), ("c", "T3"), ("d", "T4")] (by decide) "d" "T4"
      (by decide)).1 (Or.inl rfl)
  · refine (C1_lock_rule 10 [("a", 20), ("b", 5), ("c", 10)] []
      [("a", "T1"), ("b", "T2"), ("c", "T3"), ("d", "T4")] (by decide) "b" "T2"
      (by decide)).2.1 ?_
    rintro (h | ⟨k, hk, hlt⟩)
    · exact absurd h (by decide)
    · rw [show alistGet [("a", 20), ("b", 5), ("c", 10)] "b" = some 5 from rfl] at hk
      cases hk
      exact absurd hlt (by decide)
  · exact (C1_lock_rule 10 [("a", 20), ("b", 5), ("c", 10)] []
      [("a", "T1"), ("b", "T2"), ("c", "T3"), ("d", "T4")] (by decide) "c" "T3"
      (by decide)).2.2 rfl

/-- Every element of `alistSet l k v` is the new binding or an element of
`l`. -/
theorem mem_alistSet {α : Type} (l : List (String × α)) (k : String) (v : α)
    (x : String × α) (h : x ∈ alistSet l k v) : x = (k, v) ∨ x ∈ l := by
  induction l with
  | nil =>
    simp only [alistSet, List.mem_singleton] at h
    exact Or.inl h
  | cons hd tl ih =>
    obtain ⟨k0, v0⟩ := hd
    simp only [alistSet] at h
    by_cases hk : k0 = k
    · rw [if_pos hk] at h
      rcases List.mem_cons.mp h with h1 | h1
      · left
        rw [h1, hk]
      · exact Or.inr (List.mem_cons_of_mem _ h1)
    · rw [if_neg hk] at h
      rcases List.mem_cons.mp h with h1 | h1
      · exact Or.inr (List.mem_cons.mpr (Or.inl h1))
      · rcases ih h1 with h' | h'
        · exact Or.inl h'
        · exact Or.inr (List.mem_cons_of_mem _ h')

/-- Every binding produced by the competitor loop either was already in the
accumulator or comes from a competitor of the list whose winner flag is
truthy, via the assignment `winners[str(event['id'])] = competitor['team']['id']`. -/
theorem processCompetitors_mem (event : Json) (cs : List Json)
    (winners w' : List (String × Json))
    (h : processCompetitors event cs winners = .ok w')
    (gid : String) (tid : Json) (hm : (gid, tid) ∈ w') :
    (gid, tid) ∈ winners
    ∨ ∃ c ∈ cs, competitorIsWinner c = .ok true ∧ winnerEntry event c = .ok (gid, tid) := by
  induction cs generalizing winners with
  | nil =>
    simp only [processCompetitors] at h
    cases h
    exact Or.inl hm
  | cons c rest ih =>
    simp only [processCompetitors] at h
    cases hw : competitorIsWinner c with
    | error e => rw [hw] at h; cases h
    | ok b =>
      rw [hw] at h
      cases b with
      | false =>
        rcases ih winners h with h' | ⟨c', hc', hw', he'⟩
        · exact Or.inl h'
        · exact Or.inr ⟨c', List.mem_cons_of_mem _ hc', hw', he'⟩
      | true =>
        cases hent : winnerEntry event c with
        | error e => rw [hent] at h; cases h
        | ok entry =>
          rw [hent] at h
          rcases ih (alistSet winners entry.1 entry.2) h with h' | ⟨c', hc', hw', he'⟩
          · rcases mem_alistSet winners entry.1 entry.2 _ h' with h'' | h''
            · refine Or.inr ⟨c, List.mem_cons_self _ _, hw, ?_⟩
              rw [hent]
              obtain ⟨e1, e2⟩ := Prod.mk.inj h''
              rw [e1, e2]
            · exact Or.inl h''
          · exact Or.inr ⟨c', List.mem_cons_of_mem _ hc', hw', he'⟩

/-- Every binding produced by the event loop comes from a completed event
of the list and one of its winner-flagged competitors (or was already in
the accumulator). -/
theorem processEvents_mem (evs : List Json) (winners w' : List (String × Json))
    (h : processEvents evs winners = .ok w')
    (gid : String) (tid : Json) (hm : (gid, tid) ∈ w') :
    (gid, tid) ∈ winners
    ∨ ∃ ev ∈ evs, eventCompleted ev = .ok true
        ∧ ∃ cs, eventCompetitors ev = .ok cs
        ∧ ∃ c ∈ cs, competitorIsWinner c = .ok true
        ∧ winnerEntry ev c = .ok (gid, tid) := by
  induction evs generalizing winners with
  | nil =>
    simp only [processEvents] at h
    cases h
    exact Or.inl hm
  | cons ev rest ih =>
    simp only [processEvents] at h
    cases hc : eventCompleted ev with
    | error e => rw [hc] at h; cases h
    | ok b =>
      rw [hc] at h
      cases b with
      | false =>
        rcases ih winners h with h' | ⟨ev', hev', hc', cs, hcs, c, hcmem, hw, he⟩
        · exact Or.inl h'
        · exact Or.inr ⟨ev', List.mem_cons_of_mem _ hev', hc', cs, hcs, c, hcmem, hw, he⟩
      | true =>
        cases hcs : eventCompetitors ev with
        | error e => rw [hcs] at h; cases h
        | ok cs =>
          rw [hcs] at h
          dsimp only at h
          cases hpc : processCompetitors ev cs winners with
          | error e => rw [hpc] at h; cases h
          | ok winners1 =>
            rw [hpc] at h
            rcases ih winners1 h with h' | ⟨ev', hev', hc', cs', hcs', c, hcmem, hw, he⟩
            · rcases processCompetitors_mem ev cs winners winners1 hpc gid tid h' with
                h'' | ⟨c, hcmem, hw, he⟩
              · exact Or.inl h''
              · exact Or.inr ⟨ev, List.mem_cons_self _ _, hc, cs, hcs, c, hcmem, hw, he⟩
            · exact Or.inr ⟨ev', List.mem_cons_of_mem _ hev', hc', cs', hcs', c, hcmem, hw, he⟩

/-- C2: whenever `determine_winners` returns a winner map, every binding of
that map comes from an event of the schedule whose competition is marked
completed and from one of its competitors whose winner flag is set — so the
map contains no non-completed game and no game without a flagged winner —
and on the empty schedule `{'events': []}` it returns the empty map. -/
theorem C2_winners_only_completed (games : Json) (w : List (String × Json))
    (h : determine_winners games = .ok w) :
    (∀ gid tid, (gid, tid) ∈ w →
      ∃ eventsJson, pyGetDefault games "events" (.arr []) = .ok eventsJson
        ∧ ∃ evs, pyIter eventsJson = .ok evs
        ∧ ∃ ev ∈ evs, eventCompleted ev = .ok true
        ∧ ∃ cs, eventCompetitors ev = .ok cs
        ∧ ∃ c ∈ cs, competitorIsWinner c = .ok true
        ∧ winnerEntry ev c = .ok (gid, tid))
    ∧ determine_winners (Json.obj [("events", Json.arr [])]) = .ok [] := by
  refine ⟨?_, rfl⟩
  intro gid tid hm
  by_cases ht : pyTruthy games
  · simp only [determine_winners, ht, Bool.not_true, Bool.false_eq_true, if_false] at h
    cases hcont : pyContains games "events" with
    | error e => rw [hcont] at h; cases h
    | ok b =>
      rw [hcont] at h
      cases b with
      | false => cases h; exact absurd hm (List.not_mem_nil _)
      | true =>
        cases hget : pyGetDefault games "events" (.arr []) with
        | error e => rw [hget] at h; cases h
        | ok eventsJson =>
          rw [hget] at h
          dsimp only at h
          cases hiter : pyIter eventsJson with
          | error e => rw [hiter] at h; cases h
          | ok evs =>
            rw [hiter] at h
            rcases processEvents_mem evs [] w h gid tid hm with h' | h'
            · exact absurd h' (List.not_mem_nil _)
            · exact ⟨eventsJson, rfl, evs, hiter, h'⟩
  · simp only [determine_winners, ht, Bool.not_false, if_true] at h
    cases h
    exact absurd hm (List.not_mem_nil _)

/-- Witness for C2 at a concrete one-event completed schedule: the map is
`{"1": "T2"}` and each existential is realised by that event. -/
theorem C2_winners_only_completed_witness :
    ∃ eventsJson, pyGetDefault
        (Json.obj [("events", Json.arr [Json.obj [
          ("id", Json.str "1"),
          ("competitions", Json.arr [Json.obj [
            ("status", Json.obj [("type", Json.obj [("completed", Json.bool true)])]),
            ("competitors", Json.arr [Json.obj [
              ("winner", Json.bool true),
              ("team", Json.obj [("id", Json.str "T2")])]])]])]])])
        "events" (.arr []) = .ok eventsJson
      ∧ ∃ evs, pyIter eventsJson = .ok evs
      ∧ ∃ ev ∈ evs, eventCompleted ev = .ok true
      ∧ ∃ cs, eventCompetitors ev = .ok cs
      ∧ ∃ c ∈ cs, competitorIsWinner c = .ok true
      ∧ winnerEntry ev c = .ok ("1", Json.str "T2") := by
  refine (C2_winners_only_completed
    (Json.obj [("events", Json.arr [Json.obj [
      ("id", Json.str "1"),
      ("competitions", Json.arr [Json.obj [
        ("status", Json.obj [("type", Json.obj [("completed", Json.bool true)])]),
        ("competitors", Json.arr [Json.obj [
          ("winner", Json.bool true),
          ("team", Json.obj [("id", Json.str "T2")])]])]])]])])
    [("1", Json.str "T2")] rfl).1 "1" (Json.str "T2") (List.mem_cons_self _ _)

/-- C7 counterexample: a schedule with an `'events'` list containing a
malformed event (an empty object, lacking `'competitions'`) makes
`determine_winners` raise `KeyError` instead of returning an empty map. -/
theorem C7_counterexample_malformed_event :
    determine_winners (Json.obj [("events", Json.arr [Json.obj []])])
      = .error .keyError := rfl

/-- C7 (amended): `determine_winners` returns an empty map when the
schedule is falsy (e.g. `None`, `{}`, `[]`), when it does not contain the
key `'events'`, and when the events list is empty; but it is NOT total over
arbitrary documents: an event missing the expected
competitions/status/competitors structure raises an uncaught exception. -/
theorem C7_tolerance_amended (games : Json) :
    (pyTruthy games = false → determine_winners games = .ok [])
    ∧ (pyContains games "events" = .ok false → determine_winners games = .ok [])
    ∧ determine_winners (Json.obj [("events", Json.arr [])]) = .ok []
    ∧ determine_winners (Json.obj [("events", Json.arr [Json.obj []])])
        = .error .keyError := by
  refine ⟨?_, ?_, rfl, rfl⟩
  · intro h
    simp [determine_winners, h]
  · intro h
    by_cases ht : pyTruthy games
    · simp [determine_winners, ht, h]
    · simp [determine_winners, ht]

/-- Witness for C7 (amended) at concrete schedules: `None`, an empty dict,
and a dict without `'events'`. -/
theorem C7_tolerance_amended_witness :
    determine_winners Json.null = .ok []
    ∧ determine_winners (Json.obj []) = .ok []
    ∧ determine_winners (Json.obj [("week", Json.num 3)]) = .ok [] :=
  ⟨(C7_tolerance_amended Json.null).1 rfl,
   (C7_tolerance_amended (Json.obj [])).1 rfl,
   (C7_tolerance_amended (Json.obj [("week", Json.num 3)])).2.1 rfl⟩

/-- The competitor loop leaves the winners dict unchanged when no
competitor of the list has a truthy winner flag. -/
theorem processCompetitors_skip (event : Json) (cs : List Json)
    (winners : List (String × Json))
    (h : ∀ c ∈ cs, competitorIsWinner c = .ok false) :
    processCompetitors event cs winners = .ok winners := by
  induction cs with
  | nil => rfl
  | cons c rest ih =>
    have hc := h c (List.mem_cons_self _ _)
    simp only [processCompetitors, hc]
    exact ih (fun c' hc' => h c' (List.mem_cons_of_mem _ hc'))

/-- C10: when the competitor list of a completed game contains several
competitors flagged as winner, each later flagged competitor overwrites the
earlier one under the same game id, so the loop records the team id of the
LAST flagged competitor in list order: if `c` is flagged, every competitor
after `c` is unflagged, and the loop succeeds, the resulting map binds the
game id to `c`'s team id. -/
theorem C10_last_flagged_wins (event : Json) (pre post : List Json) (c : Json)
    (winners w' : List (String × Json)) (gid : String) (tid : Json)
    (hrun : processCompetitors event (pre ++ c :: post) winners = .ok w')
    (hc : competitorIsWinner c = .ok true)
    (hentry : winnerEntry event c = .ok (gid, tid))
    (hpost : ∀ c' ∈ post, competitorIsWinner c' = .ok false) :
    alistGet w' gid = some tid := by
  induction pre generalizing winners with
  | nil =>
    simp only [List.nil_append, processCompetitors, hc, hentry] at hrun
    rw [processCompetitors_skip event post (alistSet winners gid tid) hpost] at hrun
    cases hrun
    exact alistGet_alistSet_self winners gid tid
  | cons a pre' ih =>
    simp only [List.cons_append, processCompetitors] at hrun
    cases ha : competitorIsWinner a with
    | error e => rw [ha] at hrun; cases hrun
    | ok b =>
      rw [ha] at hrun
      cases b with
      | false => exact ih winners hrun
      | true =>
        cases hent : winnerEntry event a with
        | error e => rw [hent] at hrun; cases hrun
        | ok entry =>
          rw [hent] at hrun
          exact ih (alistSet winners entry.1 entry.2) hrun

/-- Witness for C10: two competitors of the same event are both flagged;
the recorded team id is the second one's ("T2", not "T1"). -/
theorem C10_last_flagged_wins_witness :
    alistGet [("g1", Json.str "T2")] "g1" = some (Json.str "T2") :=
  C10_last_flagged_wins
    (Json.obj [("id", Json.str "g1")])
    [Json.obj [("winner", Json.bool true), ("team", Json.obj [("id", Json.str "T1")])]]
    []
    (Json.obj [("winner", Json.bool true), ("team", Json.obj [("id", Json.str "T2")])])
    [] [("g1", Json.str "T2")] "g1" (Json.str "T2")
    rfl rfl rfl (fun c' hc' => absurd hc' (List.not_mem_nil c'))

/-- The pick counter of `pickStats` counts every pick of the list. -/
theorem pickStats_fst (winners : List (String × String)) (l : UserPicks) :
    (pickStats winners l).1 = l.length := by
  induction l with
  | nil => rfl
  | cons hd tl ih =>
    obtain ⟨gid, tid⟩ := hd
    by_cases h : alistGet winners gid = some tid
    · simp only [pickStats, if_pos h, List.length_cons, ih]
    · simp only [pickStats, if_neg h, List.length_cons, ih]

/-- The week counter of `weekPlayerStats` counts exactly the selected
player's recorded picks of that week. -/
theorem weekPlayerStats_fst (winners : List (String × String)) (selected : String)
    (wd : WeekData) :
    (weekPlayerStats winners selected wd).1 = playerWeekPicks selected wd := by
  induction wd with
  | nil => rfl
  | cons hd tl ih =>
    obtain ⟨player, picks⟩ := hd
    by_cases h : player = selected
    · simp only [weekPlayerStats, playerWeekPicks, if_pos h, ih, pickStats_fst]
      omega
    · simp only [weekPlayerStats, playerWeekPicks, if_neg h, ih]
      omega

/-- `total_picks` accumulated by the scoreboard equals the selected
player's recorded picks across all weeks. -/
theorem scoreboardStats_fst (weekWinners : String → List (String × String))
    (selected : String) (allData : Store) :
    (scoreboardStats weekWinners selected allData).1
      = playerTotalPicks selected allData := by
  induction allData with
  | nil => rfl
  | cons hd tl ih =>
    obtain ⟨weekStr, weekPicks⟩ := hd
    simp only [scoreboardStats, playerTotalPicks, ih, weekPlayerStats_fst]
    omega

/-- C8: the scoreboard win rate for the selected player is `0` when that
player has zero recorded picks across all weeks (first two conjuncts: the
accumulated `total_picks` equals the recorded pick count, and when it is
zero the win rate is `0`), and otherwise equals
`round(100 * wins / picks, 1)` — the percentage of winning picks rounded to
one decimal place (third conjunct). -/
theorem C8_win_rate (weekWinners : String → List (String × String))
    (selected : String) (allData : Store) :
    (scoreboardStats weekWinners selected allData).1
        = playerTotalPicks selected allData
    ∧ (playerTotalPicks selected allData = 0 →
        scoreboardWinRate weekWinners selected allData = 0)
    ∧ (0 < playerTotalPicks selected allData →
        scoreboardWinRate weekWinners selected allData =
          pyRound1 (100 * ((scoreboardStats weekWinners selected allData).2 : ℚ)
            / ((scoreboardStats weekWinners selected allData).1 : ℚ))) := by
  have hfst := scoreboardStats_fst weekWinners selected allData
  refine ⟨hfst, ?_, ?_⟩
  · intro h0
    have hz : (scoreboardStats weekWinners selected allData).1 = 0 := hfst.trans h0
    simp only [scoreboardWinRate, hz]
    norm_num
  · intro hpos
    have hp : 0 < (scoreboardStats weekWinners selected allData).1 := by
      rw [hfst]; exact hpos
    simp only [scoreboardWinRate, if_pos hp]
    congr 1
    ring

/-- Witness for C8: a player with one pick and no resolved winners has win
rate `round(100 * 0 / 1, 1)`; a player with no picks has win rate `0`. -/
theorem C8_win_rate_witness :
    (0 < playerTotalPicks "alice" [("1", [("alice", [("100", "TEAMA")])])]
      ∧ scoreboardWinRate (fun _ => []) "alice" [("1", [("alice", [("100", "TEAMA")])])] =
          pyRound1 (100 * ((scoreboardStats (fun _ => []) "alice"
              [("1", [("alice", [("100", "TEAMA")])])]).2 : ℚ)
            / ((scoreboardStats (fun _ => []) "alice"
              [("1", [("alice", [("100", "TEAMA")])])]).1 : ℚ)))
    ∧ (playerTotalPicks "bob" [("1", [("alice", [("100", "TEAMA")])])] = 0
      ∧ scoreboardWinRate (fun _ => []) "bob" [("1", [("alice", [("100", "TEAMA")])])] = 0) :=
  ⟨⟨by decide,
    (C8_win_rate (fun _ => []) "alice" [("1", [("alice", [("100", "TEAMA")])])]).2.2 (by decide)⟩,
   ⟨by decide,
    (C8_win_rate (fun _ => []) "bob" [("1", [("alice", [("100", "TEAMA")])])]).2.1 (by decide)⟩⟩

end NflApp
